import Mathlib

/-!
Verification of the skitzo retrieval-augmented QA pipeline.

Shallow embedding of the core components translated from the repository's
Python sources:
  * `app/document_processor.py` — `DocumentChunk`, `DocumentProcessor._create_text_chunks`
  * `app/embedding_service.py`  — `EmbeddingService.index_chunks`, `search_similar`,
    `get_context_for_query`
  * `app/gemini_service.py`     — `GeminiService.generate_answer`, `generate_batch_answers`
  * `app/query_processor.py`    — `QueryProcessor.process_request`,
    `_process_questions_with_gemini`

Python strings are modelled as `List Char`; character offsets are `Nat`.
External capabilities (sentence-transformers embedding, FAISS nearest-neighbour
search, the Gemini completion API, document download/extraction) are passed as
function parameters; fallible capabilities return `Except` with the error
message as `List Char` (modelling the exception's string).
-/

set_option maxRecDepth 8000

namespace Skitzo

/-- Python `str.strip()`-style whitespace test (`Char.isWhitespace` covers the
space, tab, CR and LF characters produced by the extraction step). -/
def pyWhitespace : Char → Bool := Char.isWhitespace

/-- Python slice `t[a:b]` for `0 ≤ a ≤ b` (indices past the end clamp). -/
def pySlice (t : List Char) (a b : Nat) : List Char :=
  (t.drop a).take (b - a)

/-- Python `str.strip()`: drop whitespace from the front, then from the back. -/
def pyStrip (l : List Char) : List Char :=
  ((l.dropWhile pyWhitespace).reverse.dropWhile pyWhitespace).reverse

/-- Helper for Python `text.rfind(' ', i, j)`: scan indices `i + n - 1` down to
`i`, returning the first (i.e. highest) index holding a space. -/
def rfind_space_aux (t : List Char) (i : Nat) : Nat → Option Nat
  | 0 => none
  | n + 1 =>
    if t.getD (i + n) (Char.ofNat 0) = ' ' then some (i + n)
    else rfind_space_aux t i n

/-- Python `text.rfind(' ', i, j)`: index of the last space in `t[i:j]`,
`none` standing for Python's `-1`. -/
def rfind_space (t : List Char) (i j : Nat) : Option Nat :=
  rfind_space_aux t i (j - i)

/-- `DocumentProcessor.__init__`: `self.chunk_size = 1000`. -/
def chunk_size : Nat := 1000

/-- `DocumentProcessor.__init__`: `self.overlap = 200`. -/
def overlap : Nat := 200

/-- The `source_meta` dict attached to a chunk by `_create_text_chunks`:
the caller's `base_metadata` (kept abstract as `α`) together with
`chunk_index` and, in the multi-chunk case, `start_char` / `end_char`. -/
structure SourceMeta (α : Type) where
  base : α
  chunk_index : Nat
  start_char : Option Nat
  end_char : Option Nat
deriving DecidableEq, Repr

/-- `DocumentChunk` from `app/document_processor.py`. -/
structure DocumentChunk (α : Type) where
  text : List Char
  chunk_id : String
  source_meta : SourceMeta α
deriving DecidableEq, Repr

/-- `DocumentChunk.to_dict`: the dict view of a chunk (same three fields). -/
structure ChunkDict (α : Type) where
  text : List Char
  chunk_id : String
  source_meta : SourceMeta α
deriving DecidableEq, Repr

/-- `DocumentChunk.to_dict` from `app/document_processor.py`. -/
def DocumentChunk.to_dict {α : Type} (c : DocumentChunk α) : ChunkDict α :=
  { text := c.text, chunk_id := c.chunk_id, source_meta := c.source_meta }

/-- One iteration's (possibly snapped) window end in
`DocumentProcessor._create_text_chunks`:
`end = start + chunk_size`; if `end < len(text)`, snap to
`text.rfind(' ', end - overlap, end)` when that exceeds `start`. -/
def compute_end (t : List Char) (start : Nat) : Nat :=
  let e := start + chunk_size
  if e < t.length then
    match rfind_space t (e - overlap) e with
    | some break_point => if start < break_point then break_point else e
    | none => e
  else e

/-- The cursor update at the bottom of the `_create_text_chunks` loop:
`start = end - overlap if end < len(text) else len(text)`. -/
def next_start (t : List Char) (start : Nat) : Nat :=
  let e := compute_end t start
  if e < t.length then e - overlap else t.length

/-- The `while start < len(text)` loop of `_create_text_chunks`, with explicit
fuel (the fuel is never exhausted when it is at least `t.length - start`,
because the cursor strictly increases each iteration; see
`chunk_loop_fuel_irrelevant`). -/
def chunk_loop {α : Type} (t : List Char) (base : α) :
    Nat → Nat → Nat → List (DocumentChunk α)
  | 0, _, _ => []
  | fuel + 1, start, chunk_index =>
    if start < t.length then
      if pyStrip (pySlice t start (compute_end t start)) = [] then
        chunk_loop t base fuel (next_start t start) chunk_index
      else
        { text := pyStrip (pySlice t start (compute_end t start))
          chunk_id := "chunk_" ++ toString chunk_index
          source_meta :=
            { base := base, chunk_index := chunk_index
              start_char := some start, end_char := some (compute_end t start) } } ::
          chunk_loop t base fuel (next_start t start) (chunk_index + 1)
    else []

/-- `DocumentProcessor._create_text_chunks`. -/
def create_text_chunks {α : Type} (t : List Char) (base : α) :
    List (DocumentChunk α) :=
  if t.length ≤ chunk_size then
    [{ text := t, chunk_id := "chunk_0",
       source_meta :=
         { base := base, chunk_index := 0, start_char := none, end_char := none } }]
  else
    chunk_loop t base t.length 0 0

/-! ### Properties of the backward space search -/

theorem rfind_space_aux_some {t : List Char} {i n k : Nat}
    (h : rfind_space_aux t i n = some k) :
    i ≤ k ∧ k < i + n ∧ t.getD k (Char.ofNat 0) = ' ' ∧
      ∀ m, k < m → m < i + n → t.getD m (Char.ofNat 0) ≠ ' ' := by
  induction n with
  | zero => simp [rfind_space_aux] at h
  | succ n ih =>
    rw [rfind_space_aux] at h
    by_cases hsp : t.getD (i + n) (Char.ofNat 0) = ' '
    · rw [if_pos hsp] at h
      obtain rfl : i + n = k := by injection h
      exact ⟨Nat.le_add_right _ _, by omega, hsp, fun m h1 h2 => by omega⟩
    · rw [if_neg hsp] at h
      obtain ⟨h1, h2, h3, h4⟩ := ih h
      refine ⟨h1, by omega, h3, fun m hm1 hm2 => ?_⟩
      rcases Nat.lt_or_ge m (i + n) with hlt | hge
      · exact h4 m hm1 hlt
      · have : m = i + n := by omega
        subst this; exact hsp

theorem rfind_space_aux_none {t : List Char} {i n : Nat}
    (h : rfind_space_aux t i n = none) :
    ∀ m, i ≤ m → m < i + n → t.getD m (Char.ofNat 0) ≠ ' ' := by
  induction n with
  | zero => intro m h1 h2; omega
  | succ n ih =>
    rw [rfind_space_aux] at h
    by_cases hsp : t.getD (i + n) (Char.ofNat 0) = ' '
    · rw [if_pos hsp] at h; exact absurd h (by simp)
    · rw [if_neg hsp] at h
      intro m h1 h2
      rcases Nat.lt_or_ge m (i + n) with hlt | hge
      · exact ih h m h1 hlt
      · have : m = i + n := by omega
        subst this; exact hsp

/-- Relate the `getD` used by the scan to `get?` at in-range indices. -/
theorem getD_space_iff {t : List Char} {k : Nat} (h : k < t.length) :
    t.getD k (Char.ofNat 0) = ' ' ↔ t.get? k = some ' ' := by
  rw [List.getD_eq_getD_get?, List.get?_eq_get h]
  simp

/-! ### Bounds for the window end and the cursor update -/

theorem compute_end_lb (t : List Char) (start : Nat) :
    start + 800 ≤ compute_end t start := by
  unfold compute_end
  by_cases h : start + chunk_size < t.length
  · rw [if_pos h]
    rcases hr : rfind_space t (start + chunk_size - overlap) (start + chunk_size)
      with _ | bp
    · simp [chunk_size]
    · unfold rfind_space at hr
      obtain ⟨h1, _, _, _⟩ := rfind_space_aux_some hr
      by_cases hbp : start < bp
      · simp only [if_pos hbp]
        simp only [chunk_size, overlap] at h1 ⊢
        omega
      · simp [hbp, chunk_size]
  · rw [if_neg h]; simp [chunk_size]

theorem compute_end_ub (t : List Char) (start : Nat) :
    compute_end t start ≤ start + chunk_size := by
  unfold compute_end
  by_cases h : start + chunk_size < t.length
  · rw [if_pos h]
    rcases hr : rfind_space t (start + chunk_size - overlap) (start + chunk_size)
      with _ | bp
    · simp
    · unfold rfind_space at hr
      obtain ⟨h1, h2, _, _⟩ := rfind_space_aux_some hr
      by_cases hbp : start < bp
      · simp only [if_pos hbp]
        simp only [chunk_size, overlap] at h2 ⊢
        omega
      · simp [hbp]
  · rw [if_neg h]

theorem compute_end_lt_len {t : List Char} {start : Nat}
    (h : start + chunk_size < t.length) : compute_end t start < t.length := by
  unfold compute_end
  rw [if_pos h]
  rcases hr : rfind_space t (start + chunk_size - overlap) (start + chunk_size)
    with _ | bp
  · exact h
  · unfold rfind_space at hr
    obtain ⟨_, h2, _, _⟩ := rfind_space_aux_some hr
    by_cases hbp : start < bp
    · simp only [if_pos hbp]
      simp only [chunk_size, overlap] at h2 h ⊢
      omega
    · simp [hbp, h]

theorem compute_end_of_ge {t : List Char} {start : Nat}
    (h : ¬ start + chunk_size < t.length) :
    compute_end t start = start + chunk_size := by
  unfold compute_end; rw [if_neg h]

theorem next_start_gt {t : List Char} {start : Nat} (h : start < t.length) :
    start < next_start t start := by
  unfold next_start
  by_cases he : compute_end t start < t.length
  · rw [if_pos he]
    have := compute_end_lb t start
    simp only [overlap]
    omega
  · rw [if_neg he]; exact h

theorem next_start_cases (t : List Char) (start : Nat) :
    (next_start t start = t.length ∧ ¬ compute_end t start < t.length) ∨
      (next_start t start = compute_end t start - overlap ∧
        start + 600 ≤ next_start t start ∧ compute_end t start < t.length) := by
  unfold next_start
  by_cases he : compute_end t start < t.length
  · right
    rw [if_pos he]
    have := compute_end_lb t start
    exact ⟨rfl, by simp only [overlap]; omega, he⟩
  · left; rw [if_neg he]; exact ⟨rfl, he⟩

theorem compute_end_eq_of_none {t : List Char} {start : Nat}
    (h : start + chunk_size < t.length)
    (hr : rfind_space t (start + chunk_size - overlap) (start + chunk_size) = none) :
    compute_end t start = start + chunk_size := by
  unfold compute_end
  rw [if_pos h]
  simp only [hr]

theorem compute_end_eq_of_some_pos {t : List Char} {start bp : Nat}
    (h : start + chunk_size < t.length)
    (hr : rfind_space t (start + chunk_size - overlap) (start + chunk_size) = some bp)
    (hbp : start < bp) :
    compute_end t start = bp := by
  unfold compute_end
  rw [if_pos h]
  simp only [hr]
  rw [if_pos hbp]

/-! ### Fuel irrelevance: the loop's fuel is immaterial once it covers the
remaining distance, which is the termination argument for the `while` loop. -/

theorem chunk_loop_of_not_lt {α : Type} {t : List Char} {base : α} {start ci : Nat}
    (h : ¬ start < t.length) :
    ∀ fuel, chunk_loop t base fuel start ci = [] := by
  intro fuel
  cases fuel with
  | zero => rfl
  | succ m => rw [chunk_loop, if_neg h]

theorem chunk_loop_fuel_irrelevant {α : Type} (t : List Char) (base : α) :
    ∀ (fuel₁ fuel₂ start ci : Nat), t.length - start ≤ fuel₁ →
      t.length - start ≤ fuel₂ →
      chunk_loop t base fuel₁ start ci = chunk_loop t base fuel₂ start ci := by
  intro fuel₁
  induction fuel₁ with
  | zero =>
    intro fuel₂ start ci h1 h2
    have hs : ¬ start < t.length := by omega
    rw [chunk_loop_of_not_lt hs, chunk_loop_of_not_lt hs]
  | succ n ih =>
    intro fuel₂ start ci h1 h2
    by_cases hs : start < t.length
    · have hns := next_start_gt hs
      cases fuel₂ with
      | zero => omega
      | succ m =>
        rw [chunk_loop, chunk_loop, if_pos hs, if_pos hs]
        have hrec := ih m (next_start t start)
        by_cases hc : pyStrip (pySlice t start (compute_end t start)) = []
        · simp only [hc, if_pos rfl]
          exact hrec ci (by omega) (by omega)
        · simp only [if_neg hc]
          rw [hrec (ci + 1) (by omega) (by omega)]
    · rw [chunk_loop_of_not_lt hs, chunk_loop_of_not_lt hs]

/-! ### `strip` is idempotent -/

theorem dropWhile_dropWhile (p : Char → Bool) (l : List Char) :
    (l.dropWhile p).dropWhile p = l.dropWhile p := by
  induction l with
  | nil => rfl
  | cons a l ih =>
    rw [List.dropWhile_cons]
    by_cases h : p a
    · rw [if_pos h]; exact ih
    · rw [if_neg h, List.dropWhile_cons, if_neg h]

theorem dropWhile_head? (p : Char → Bool) {l : List Char} {b : Char}
    (h : (l.dropWhile p).head? = some b) : p b = false := by
  induction l with
  | nil => simp [List.dropWhile] at h
  | cons a l ih =>
    rw [List.dropWhile_cons] at h
    by_cases hp : p a
    · rw [if_pos hp] at h; exact ih h
    · rw [if_neg hp] at h
      simp only [List.head?_cons, Option.some.injEq] at h
      subst h
      exact Bool.eq_false_iff.mpr hp

theorem dropWhile_suffix_ex (p : Char → Bool) (l : List Char) :
    ∃ u, u ++ l.dropWhile p = l := by
  induction l with
  | nil => exact ⟨[], rfl⟩
  | cons a l ih =>
    rw [List.dropWhile_cons]
    by_cases hp : p a
    · rw [if_pos hp]
      obtain ⟨u, hu⟩ := ih
      exact ⟨a :: u, by simp [hu]⟩
    · rw [if_neg hp]; exact ⟨[], rfl⟩

theorem pyStrip_idem (l : List Char) : pyStrip (pyStrip l) = pyStrip l := by
  unfold pyStrip
  set p := pyWhitespace with hp
  set x := l.dropWhile p with hx
  set z := x.reverse.dropWhile p with hz
  have hz_rev_rev : z.reverse.reverse = z := List.reverse_reverse z
  have step2 : z.reverse.reverse.dropWhile p = z.reverse.reverse := by
    rw [hz_rev_rev, hz]
    exact dropWhile_dropWhile p x.reverse
  have step1 : z.reverse.dropWhile p = z.reverse := by
    rcases List.eq_nil_or_concat' z with h0 | ⟨z', b, hcat⟩
    · rw [h0]; rfl
    · have hb : p b = false := by
        obtain ⟨u, hu⟩ := dropWhile_suffix_ex p x.reverse
        rw [← hz] at hu
        have hxrev : x.reverse = u ++ (z' ++ [b]) := by rw [← hcat, hu]
        have hxval : x = b :: (u ++ z').reverse := by
          have := congrArg List.reverse hxrev
          rw [List.reverse_reverse] at this
          rw [this, ← List.append_assoc, List.reverse_append]
          simp
        have hhead : (l.dropWhile p).head? = some b := by
          rw [← hx, hxval]
          rfl
        exact dropWhile_head? p hhead
      rw [hcat, List.reverse_append]
      simp only [List.reverse_singleton, List.singleton_append, List.dropWhile_cons, hb]
      simp
  rw [step1, step2, hz_rev_rev]

/-! ### Invariants of the chunking loop -/

/-- Every chunk emitted by the loop records the cursor position `s` of its
iteration (`s ≥` the entry cursor), its window end `compute_end t s`, and
carries the non-empty stripped window text. -/
theorem chunk_loop_mem {α : Type} {t : List Char} {base : α} :
    ∀ {fuel start ci : Nat} {c : DocumentChunk α},
      c ∈ chunk_loop t base fuel start ci →
      ∃ s, start ≤ s ∧ s < t.length ∧
        c.source_meta.start_char = some s ∧
        c.source_meta.end_char = some (compute_end t s) ∧
        c.text = pyStrip (pySlice t s (compute_end t s)) ∧ c.text ≠ [] := by
  intro fuel
  induction fuel with
  | zero => intro start ci c h; exact absurd h (List.not_mem_nil c)
  | succ n ih =>
    intro start ci c h
    rw [chunk_loop] at h
    by_cases hs : start < t.length
    · rw [if_pos hs] at h
      by_cases hc : pyStrip (pySlice t start (compute_end t start)) = []
      · rw [if_pos hc] at h
        obtain ⟨s, h1, h2, h3, h4, h5, h6⟩ := ih h
        have := next_start_gt hs
        exact ⟨s, by omega, h2, h3, h4, h5, h6⟩
      · rw [if_neg hc] at h
        rcases List.mem_cons.mp h with rfl | htail
        · exact ⟨start, Nat.le_refl _, hs, rfl, rfl, rfl, hc⟩
        · obtain ⟨s, h1, h2, h3, h4, h5, h6⟩ := ih htail
          have := next_start_gt hs
          exact ⟨s, by omega, h2, h3, h4, h5, h6⟩
    · rw [if_neg hs] at h
      exact absurd h (List.not_mem_nil c)

/-- Emitted chunk indices are contiguous, starting at the `chunk_index`
the loop was entered with. -/
theorem chunk_loop_get?_index {α : Type} {t : List Char} {base : α} :
    ∀ {fuel start ci i : Nat} {c : DocumentChunk α},
      (chunk_loop t base fuel start ci).get? i = some c →
      c.source_meta.chunk_index = ci + i := by
  intro fuel
  induction fuel with
  | zero => intro start ci i c h; simp [chunk_loop] at h
  | succ n ih =>
    intro start ci i c h
    rw [chunk_loop] at h
    by_cases hs : start < t.length
    · rw [if_pos hs] at h
      by_cases hc : pyStrip (pySlice t start (compute_end t start)) = []
      · rw [if_pos hc] at h
        exact ih h
      · rw [if_neg hc] at h
        cases i with
        | zero =>
          simp only [List.get?_cons_zero, Option.some.injEq] at h
          rw [← h]
          rfl
        | succ j =>
          rw [List.get?_cons_succ] at h
          have := ih h
          omega
    · rw [if_neg hs] at h
      simp at h

/-- The adjacency relation between consecutive emitted chunks that the code
actually guarantees: each chunk starts no more than `overlap` characters
before the previous chunk's recorded end. -/
def pairOverlapLower {α : Type} (c₁ c₂ : DocumentChunk α) : Prop :=
  ∃ e s, c₁.source_meta.end_char = some e ∧
    c₂.source_meta.start_char = some s ∧ e ≤ s + overlap

/-- The adjacency relation claimed by the spec: additionally, consecutive
chunks overlap (the next chunk starts at or before the previous end). -/
def pairOverlapClaimed {α : Type} (c₁ c₂ : DocumentChunk α) : Prop :=
  ∃ e s, c₁.source_meta.end_char = some e ∧
    c₂.source_meta.start_char = some s ∧ s ≤ e ∧ e ≤ s + overlap

instance {α : Type} (c₁ c₂ : DocumentChunk α) :
    Decidable (pairOverlapLower c₁ c₂) :=
  match h1 : c₁.source_meta.end_char, h2 : c₂.source_meta.start_char with
  | some e, some s =>
    if h : e ≤ s + overlap then isTrue ⟨e, s, h1, h2, h⟩
    else isFalse (by
      rintro ⟨e', s', he', hs', hle⟩
      rw [h1] at he'
      rw [h2] at hs'
      injection he' with he''
      injection hs' with hs''
      subst he''
      subst hs''
      exact h hle)
  | some _, none => isFalse (by
      rintro ⟨e', s', he', hs', _⟩
      rw [h2] at hs'
      cases hs')
  | none, _ => isFalse (by
      rintro ⟨e', s', he', hs', _⟩
      rw [h1] at he'
      cases he')

instance {α : Type} (c₁ c₂ : DocumentChunk α) :
    Decidable (pairOverlapClaimed c₁ c₂) :=
  match h1 : c₁.source_meta.end_char, h2 : c₂.source_meta.start_char with
  | some e, some s =>
    if h : s ≤ e ∧ e ≤ s + overlap then isTrue ⟨e, s, h1, h2, h.1, h.2⟩
    else isFalse (by
      rintro ⟨e', s', he', hs', hse, hle⟩
      rw [h1] at he'
      rw [h2] at hs'
      injection he' with he''
      injection hs' with hs''
      subst he''
      subst hs''
      exact h ⟨hse, hle⟩)
  | some _, none => isFalse (by
      rintro ⟨e', s', he', hs', _, _⟩
      rw [h2] at hs'
      cases hs')
  | none, _ => isFalse (by
      rintro ⟨e', s', he', hs', _, _⟩
      rw [h1] at he'
      cases he')

/-- All pairs of consecutive elements of a list satisfy `R` (an executable
rendering of `List.Chain'`, kept reducible for `decide`). -/
def pairwiseAdjacent {β : Type} (R : β → β → Prop) : List β → Prop
  | [] => True
  | [_] => True
  | x :: y :: rest => R x y ∧ pairwiseAdjacent R (y :: rest)

instance pairwiseAdjacent.instDecidable {β : Type} (R : β → β → Prop)
    [DecidableRel R] : ∀ l, Decidable (pairwiseAdjacent R l)
  | [] => isTrue trivial
  | [_] => isTrue trivial
  | x :: y :: rest =>
    haveI := pairwiseAdjacent.instDecidable R (y :: rest)
    inferInstanceAs (Decidable (R x y ∧ pairwiseAdjacent R (y :: rest)))

theorem pairwiseAdjacent_iff_chain' {β : Type} (R : β → β → Prop) :
    ∀ l, pairwiseAdjacent R l ↔ List.Chain' R l
  | [] => by simp [pairwiseAdjacent]
  | [x] => by simp [pairwiseAdjacent]
  | x :: y :: rest => by
    rw [List.chain'_cons, pairwiseAdjacent]
    exact and_congr Iff.rfl (pairwiseAdjacent_iff_chain' R (y :: rest))

/-- Consecutive chunks emitted by the loop satisfy the lower-overlap bound. -/
theorem chunk_loop_chain {α : Type} {t : List Char} {base : α} :
    ∀ (fuel start ci : Nat),
      List.Chain' pairOverlapLower (chunk_loop t base fuel start ci) := by
  intro fuel
  induction fuel with
  | zero => intro start ci; simp [chunk_loop]
  | succ n ih =>
    intro start ci
    rw [chunk_loop]
    by_cases hs : start < t.length
    · rw [if_pos hs]
      by_cases hc : pyStrip (pySlice t start (compute_end t start)) = []
      · rw [if_pos hc]; exact ih _ _
      · rw [if_neg hc]
        rw [List.chain'_cons']
        refine ⟨?_, ih _ _⟩
        intro y hy
        have hymem : y ∈ chunk_loop t base n (next_start t start) (ci + 1) := by
          rcases hh : chunk_loop t base n (next_start t start) (ci + 1) with _ | ⟨z, zs⟩
          · rw [hh] at hy; simp at hy
          · rw [hh] at hy
            simp only [List.head?_cons, Option.mem_def, Option.some.injEq] at hy
            rw [← hy]
            exact List.mem_cons_self z zs
        obtain ⟨s, hle, _, hstart, _, _, _⟩ := chunk_loop_mem hymem
        refine ⟨compute_end t start, s, rfl, hstart, ?_⟩
        rcases next_start_cases t start with ⟨hns, hne⟩ | ⟨hns, _, hlt⟩
        · -- the loop would have terminated: the tail starts at `t.length`,
          -- but then it is empty, contradicting membership
          obtain ⟨_, _, hslt, _, _, _, _⟩ := chunk_loop_mem hymem
          rw [hns] at hle
          omega
        · rw [hns] at hle
          omega
    · rw [if_neg hs]; simp

/-! ### Claim C2: word-boundary snapping -/

/-- Claim C2: in the multi-chunk loop, whenever the tentative end
`start + chunk_size` is strictly before the end of the text, the window end
snaps to the last space in `[end - overlap, end)` when such a space exists at
a position strictly greater than `start`; otherwise the end stays at
`start + chunk_size` (possibly mid-word), and no error occurs (the window-end
computation is total). -/
theorem claim2_word_boundary_snap (t : List Char) (start : Nat)
    (h : start + chunk_size < t.length) :
    (∃ k, start + 800 ≤ k ∧ k < start + 1000 ∧ start < k ∧ t.get? k = some ' ' ∧
      (∀ m, k < m → m < start + 1000 → t.get? m ≠ some ' ') ∧
      compute_end t start = k) ∨
    ((∀ m, start + 800 ≤ m → m < start + 1000 → t.get? m ≠ some ' ') ∧
      compute_end t start = start + chunk_size) := by
  have hi : start + chunk_size - overlap = start + 800 := by
    simp only [chunk_size, overlap]
    omega
  have hn : start + chunk_size - (start + chunk_size - overlap) = 200 := by
    simp only [chunk_size, overlap]
    omega
  rcases hr : rfind_space t (start + chunk_size - overlap) (start + chunk_size)
    with _ | bp
  · right
    have hr' := hr
    unfold rfind_space at hr'
    rw [hn, hi] at hr'
    refine ⟨?_, compute_end_eq_of_none h hr⟩
    intro m h1 h2 hsp
    have hm_lt : m < t.length := by
      simp only [chunk_size] at h
      omega
    exact rfind_space_aux_none hr' m h1 (by omega) ((getD_space_iff hm_lt).mpr hsp)
  · left
    have hr' := hr
    unfold rfind_space at hr'
    rw [hn, hi] at hr'
    obtain ⟨h1, h2, h3, h4⟩ := rfind_space_aux_some hr'
    have hbp_lt : bp < t.length := by
      simp only [chunk_size] at h
      omega
    refine ⟨bp, h1, by omega, by omega, (getD_space_iff hbp_lt).mp h3, ?_, ?_⟩
    · intro m hm1 hm2 hsp
      have hm_lt : m < t.length := by
        simp only [chunk_size] at h
        omega
      exact h4 m hm1 (by omega) ((getD_space_iff hm_lt).mpr hsp)
    · exact compute_end_eq_of_some_pos h hr (by omega)

/-- Witness for C2 at the concrete text `'a'*900 ++ " " ++ 'b'*600`
(the space at offset 900 is the snap target of the first window). -/
theorem claim2_word_boundary_snap_witness :
    0 + chunk_size <
        (List.replicate 900 'a' ++ [' '] ++ List.replicate 600 'b').length ∧
      ((∃ k, 0 + 800 ≤ k ∧ k < 0 + 1000 ∧ 0 < k ∧
        (List.replicate 900 'a' ++ [' '] ++ List.replicate 600 'b').get? k =
          some ' ' ∧
        (∀ m, k < m → m < 0 + 1000 →
          (List.replicate 900 'a' ++ [' '] ++ List.replicate 600 'b').get? m ≠
            some ' ') ∧
        compute_end (List.replicate 900 'a' ++ [' '] ++ List.replicate 600 'b') 0 =
          k) ∨
      ((∀ m, 0 + 800 ≤ m → m < 0 + 1000 →
          (List.replicate 900 'a' ++ [' '] ++ List.replicate 600 'b').get? m ≠
            some ' ') ∧
        compute_end (List.replicate 900 'a' ++ [' '] ++ List.replicate 600 'b') 0 =
          0 + chunk_size)) :=
  ⟨by simp [chunk_size], claim2_word_boundary_snap _ 0 (by simp [chunk_size])⟩
/-! ### Claim C1: chunk boundary invariant -/

/-- Claim C1 (amended): for texts longer than `chunk_size`, every emitted
chunk starts at most `overlap` characters before the previous chunk's
recorded end (`end_char[i] ≤ start_char[i+1] + 200`), and the `chunk_index`
values are contiguous integers starting at 0.  The claimed stronger bound
`start_char[i+1] ≤ end_char[i]` does not hold in general (see the
counterexample): an all-whitespace window is skipped without emitting a
chunk, after which the next emitted chunk can start past the previous
chunk's end. -/
theorem claim1_boundary_amended {α : Type} (t : List Char) (base : α)
    (h : 1000 < t.length) :
    pairwiseAdjacent pairOverlapLower (create_text_chunks t base) ∧
    ∀ i c, (create_text_chunks t base).get? i = some c →
      c.source_meta.chunk_index = i := by
  unfold create_text_chunks
  rw [if_neg (by simp only [chunk_size]; omega)]
  refine ⟨(pairwiseAdjacent_iff_chain' _ _).mpr (chunk_loop_chain _ _ _), ?_⟩
  intro i c hc
  have := chunk_loop_get?_index hc
  omega

/-- Witness for the amended C1 at the 1001-character text `'a'*1001`. -/
theorem claim1_boundary_amended_witness :
    1000 < (List.replicate 1001 'a').length ∧
    (pairwiseAdjacent pairOverlapLower (create_text_chunks (List.replicate 1001 'a') ()) ∧
     ∀ i c, (create_text_chunks (List.replicate 1001 'a') ()).get? i = some c →
       c.source_meta.chunk_index = i) :=
  ⟨by simp, claim1_boundary_amended _ () (by simp)⟩

/-- The text `'a'*300 ++ '\n'*1500 ++ "b"` (length 1801): its second loop
window `[800, 1800)` is entirely whitespace, so no chunk is emitted there and
the next emitted chunk starts at 1600, past the first chunk's end 1000. -/
def claim1CexText : List Char :=
  List.replicate 300 'a' ++ List.replicate 1500 '\n' ++ ['b']

/-! Symbolic evaluation of the chunker on `claim1CexText`: the text has
spaces nowhere, so no window is ever snapped, and the second loop window
(`[800, 1800)`, all newlines) strips to the empty string and is skipped. -/

theorem rfind_space_aux_eq_none {t : List Char} {i : Nat} :
    ∀ {n : Nat}, (∀ m, i ≤ m → m < i + n → t.getD m (Char.ofNat 0) ≠ ' ') →
      rfind_space_aux t i n = none := by
  intro n
  induction n with
  | zero => intro _; rfl
  | succ n ih =>
    intro h
    rw [rfind_space_aux, if_neg (h (i + n) (by omega) (by omega))]
    exact ih fun m h1 h2 => h m h1 (by omega)

theorem get?_replicate_lt {c : Char} :
    ∀ {n m : Nat}, m < n → (List.replicate n c).get? m = some c := by
  intro n
  induction n with
  | zero => intro m h; omega
  | succ n ih =>
    intro m h
    cases m with
    | zero => rfl
    | succ j =>
      rw [List.replicate_succ, List.get?_cons_succ]
      exact ih (by omega)

theorem claim1CexText_length : claim1CexText.length = 1801 := by
  simp [claim1CexText]

theorem claim1CexText_getD_mid {m : Nat} (h1 : 300 ≤ m) (h2 : m < 1800) :
    claim1CexText.getD m (Char.ofNat 0) = '\n' := by
  unfold claim1CexText
  rw [List.getD_eq_getD_get?, List.get?_append (by simp; omega),
    List.get?_append_right (by simpa using h1),
    get?_replicate_lt (by simp; omega)]
  rfl

theorem cex_rfind_none {a b : Nat} (h1 : 300 ≤ a) (h2 : b ≤ 1800) :
    rfind_space claim1CexText a b = none := by
  unfold rfind_space
  refine rfind_space_aux_eq_none ?_
  intro m hm1 hm2
  rw [claim1CexText_getD_mid (by omega) (by omega)]
  decide

theorem cex_ce0 : compute_end claim1CexText 0 = 1000 := by
  have h : compute_end claim1CexText 0 = 0 + chunk_size :=
    compute_end_eq_of_none
      (by simp only [claim1CexText_length, chunk_size]; omega)
      (cex_rfind_none (by simp only [chunk_size, overlap]; omega)
        (by simp only [chunk_size]; omega))
  simp only [chunk_size] at h
  omega

theorem cex_ce1 : compute_end claim1CexText 800 = 1800 := by
  have h : compute_end claim1CexText 800 = 800 + chunk_size :=
    compute_end_eq_of_none
      (by simp only [claim1CexText_length, chunk_size]; omega)
      (cex_rfind_none (by simp only [chunk_size, overlap]; omega)
        (by simp only [chunk_size]; omega))
  simp only [chunk_size] at h
  omega

theorem cex_ce2 : compute_end claim1CexText 1600 = 2600 := by
  have h : compute_end claim1CexText 1600 = 1600 + chunk_size :=
    compute_end_of_ge (by simp only [claim1CexText_length, chunk_size]; omega)
  simp only [chunk_size] at h
  omega

theorem cex_slice0 :
    pySlice claim1CexText 0 1000 =
      List.replicate 300 'a' ++ List.replicate 700 '\n' := by
  unfold pySlice claim1CexText
  simp [List.take_append_eq_append_take, List.take_replicate]

theorem cex_slice1 :
    pySlice claim1CexText 800 1800 = List.replicate 1000 '\n' := by
  unfold pySlice claim1CexText
  simp [List.drop_append_eq_append_drop, List.drop_replicate,
    List.take_append_eq_append_take, List.take_replicate]

theorem cex_slice2 :
    pySlice claim1CexText 1600 2600 =
      List.replicate 200 '\n' ++ ['b'] := by
  unfold pySlice claim1CexText
  simp [List.drop_append_eq_append_drop, List.drop_replicate,
    List.take_append_eq_append_take, List.take_replicate]

theorem dropWhile_ws_cons_neg {c : Char} (hc : pyWhitespace c = false)
    (rest : List Char) :
    List.dropWhile pyWhitespace (c :: rest) = c :: rest := by
  rw [List.dropWhile_cons, if_neg (by simp [hc])]

theorem dropWhile_ws_replicate_neg {c : Char} (hc : pyWhitespace c = false) :
    ∀ n, List.dropWhile pyWhitespace (List.replicate n c) =
      List.replicate n c := by
  intro n
  cases n with
  | zero => rfl
  | succ k =>
    rw [List.replicate_succ]
    exact dropWhile_ws_cons_neg hc _

theorem dropWhile_ws_nl_append :
    ∀ (m : Nat) (X : List Char),
      List.dropWhile pyWhitespace (List.replicate m '\n' ++ X) =
        List.dropWhile pyWhitespace X := by
  intro m
  induction m with
  | zero => intro X; rfl
  | succ k ih =>
    intro X
    rw [List.replicate_succ, List.cons_append, List.dropWhile_cons,
      if_pos (by decide)]
    exact ih X

theorem dropWhile_ws_nl (m : Nat) :
    List.dropWhile pyWhitespace (List.replicate m '\n') = [] := by
  have h := dropWhile_ws_nl_append m []
  simpa using h

theorem cex_strip0 :
    pyStrip (List.replicate 300 'a' ++ List.replicate 700 '\n') =
      List.replicate 300 'a' := by
  unfold pyStrip
  rw [show List.replicate 300 'a' = 'a' :: List.replicate 299 'a' from rfl]
  rw [List.cons_append, dropWhile_ws_cons_neg (by decide), ← List.cons_append,
    show ('a' :: List.replicate 299 'a') = List.replicate 300 'a' from rfl]
  rw [List.reverse_append, List.reverse_replicate, List.reverse_replicate,
    dropWhile_ws_nl_append, dropWhile_ws_replicate_neg (by decide),
    List.reverse_replicate]

theorem cex_strip1 : pyStrip (List.replicate 1000 '\n') = [] := by
  unfold pyStrip
  rw [dropWhile_ws_nl]
  rfl

theorem cex_strip2 :
    pyStrip (List.replicate 200 '\n' ++ ['b']) = ['b'] := by
  unfold pyStrip
  rw [dropWhile_ws_nl_append, dropWhile_ws_cons_neg (by decide)]
  rw [List.reverse_singleton, dropWhile_ws_cons_neg (by decide),
    List.reverse_singleton]

theorem cex_ns0 : next_start claim1CexText 0 = 800 := by
  show (if compute_end claim1CexText 0 < claim1CexText.length then
    compute_end claim1CexText 0 - overlap else claim1CexText.length) = 800
  rw [cex_ce0, claim1CexText_length, if_pos (by norm_num)]
  simp [overlap]

theorem cex_ns1 : next_start claim1CexText 800 = 1600 := by
  show (if compute_end claim1CexText 800 < claim1CexText.length then
    compute_end claim1CexText 800 - overlap else claim1CexText.length) = 1600
  rw [cex_ce1, claim1CexText_length, if_pos (by norm_num)]
  simp [overlap]

theorem cex_ns2 : next_start claim1CexText 1600 = claim1CexText.length := by
  show (if compute_end claim1CexText 1600 < claim1CexText.length then
    compute_end claim1CexText 1600 - overlap else claim1CexText.length) =
    claim1CexText.length
  rw [cex_ce2, claim1CexText_length, if_neg (by norm_num)]

/-- The chunker's complete output on `claim1CexText`: the first window
`[0, 1000)` emits the 300 `'a'`s, the second window `[800, 1800)` strips to
nothing and is skipped, and the final window `[1600, 2600)` emits `"b"` with
`start_char = 1600`. -/
theorem claim1CexChunks :
    create_text_chunks claim1CexText () =
      [⟨List.replicate 300 'a', "chunk_0", ⟨(), 0, some 0, some 1000⟩⟩,
       ⟨['b'], "chunk_1", ⟨(), 1, some 1600, some 2600⟩⟩] := by
  unfold create_text_chunks
  rw [if_neg (show ¬ (claim1CexText.length ≤ chunk_size) by
    simp only [claim1CexText_length, chunk_size]; omega)]
  rw [claim1CexText_length]
  rw [chunk_loop, if_pos (show (0:Nat) < claim1CexText.length by
    rw [claim1CexText_length]; norm_num)]
  rw [cex_ce0, cex_slice0, cex_strip0]
  rw [if_neg (show ¬ (List.replicate 300 'a' = ([] : List Char)) by simp)]
  rw [cex_ns0]
  rw [chunk_loop, if_pos (show (800:Nat) < claim1CexText.length by
    rw [claim1CexText_length]; norm_num)]
  rw [cex_ce1, cex_slice1, cex_strip1]
  rw [if_pos rfl]
  rw [cex_ns1]
  rw [chunk_loop, if_pos (show (1600:Nat) < claim1CexText.length by
    rw [claim1CexText_length]; norm_num)]
  rw [cex_ce2, cex_slice2, cex_strip2]
  rw [if_neg (show ¬ (['b'] = ([] : List Char)) by simp)]
  rw [cex_ns2]
  rw [chunk_loop_of_not_lt (Nat.lt_irrefl _)]
  rfl

set_option linter.constructorNameAsVariable false in
/-- Counterexample to C1 as stated: at `claim1CexText` (length 1801 > 1000)
the chunker emits chunks with `end_char[0] = 1000` and `start_char[1] = 1600`,
violating `start_char[i+1] ≤ end_char[i]`. -/
theorem claim1_boundary_counterexample :
    ¬ (1000 < claim1CexText.length →
       pairwiseAdjacent pairOverlapClaimed (create_text_chunks claim1CexText ()) ∧
       ∀ i c, (create_text_chunks claim1CexText ()).get? i = some c →
         c.source_meta.chunk_index = i) := by
  intro h
  obtain ⟨hpair, -⟩ := h (by rw [claim1CexText_length]; norm_num)
  rw [claim1CexChunks] at hpair
  obtain ⟨hR, -⟩ := hpair
  obtain ⟨e, s, he, hs, hse, -⟩ := hR
  injection he with he
  injection hs with hs
  omega

/-! ### Claim C3: single-chunk case -/

/-- Claim C3: for text of length at most `chunk_size` (non-blank), the
chunker returns exactly one chunk whose text is the input (hence equal to the
input after trimming), with `chunk_index = 0` and id `"chunk_0"`. -/
theorem claim3_single_chunk {α : Type} (t : List Char) (base : α)
    (h1 : t.length ≤ chunk_size) (h2 : pyStrip t ≠ []) :
    ∃ c, create_text_chunks t base = [c] ∧ c.text = t ∧
      pyStrip c.text = pyStrip t ∧ c.source_meta.chunk_index = 0 ∧
      c.chunk_id = "chunk_0" := by
  refine ⟨⟨t, "chunk_0", ⟨base, 0, none, none⟩⟩, ?_, rfl, rfl, rfl, rfl⟩
  unfold create_text_chunks
  rw [if_pos h1]

/-- Witness for C3 at the concrete text `"hello"`. -/
theorem claim3_single_chunk_witness :
    ("hello".data.length ≤ chunk_size ∧ pyStrip "hello".data ≠ []) ∧
    (∃ c, create_text_chunks "hello".data () = [c] ∧ c.text = "hello".data ∧
      pyStrip c.text = pyStrip "hello".data ∧ c.source_meta.chunk_index = 0 ∧
      c.chunk_id = "chunk_0") :=
  ⟨⟨by decide, by decide⟩, claim3_single_chunk _ () (by decide) (by decide)⟩

/-! ### Claim C8: chunk text is non-empty and trimmed -/

/-- Claim C8 (amended): chunks emitted by the multi-chunk loop carry
non-empty, whitespace-trimmed text; in the single-chunk case the chunk's
text is the raw input, which is not trimmed by the code (and is returned
as-is even when it carries surrounding whitespace). -/
theorem claim8_trimmed_amended {α : Type} (t : List Char) (base : α)
    (c : DocumentChunk α) (hc : c ∈ create_text_chunks t base) :
    (chunk_size < t.length → c.text ≠ [] ∧ pyStrip c.text = c.text) ∧
    (t.length ≤ chunk_size → c.text = t) := by
  unfold create_text_chunks at hc
  by_cases hl : t.length ≤ chunk_size
  · rw [if_pos hl] at hc
    simp only [List.mem_singleton] at hc
    subst hc
    exact ⟨fun hgt => absurd hl (by omega), fun _ => rfl⟩
  · rw [if_neg hl] at hc
    obtain ⟨s, _, _, _, _, htext, hne⟩ := chunk_loop_mem hc
    refine ⟨fun _ => ⟨hne, ?_⟩, fun hle => absurd hle hl⟩
    rw [htext]
    exact pyStrip_idem _

/-- Witness for the amended C8 at the concrete text `" a "`. -/
theorem claim8_trimmed_amended_witness :
    (⟨" a ".data, "chunk_0",
        ⟨(), 0, none, none⟩⟩ : DocumentChunk Unit) ∈
      create_text_chunks " a ".data () ∧
    ((chunk_size < " a ".data.length →
        (" a ".data : List Char) ≠ [] ∧ pyStrip " a ".data = " a ".data) ∧
     (" a ".data.length ≤ chunk_size →
        (" a ".data : List Char) = " a ".data)) :=
  ⟨by decide,
    claim8_trimmed_amended " a ".data ()
      ⟨" a ".data, "chunk_0", ⟨(), 0, none, none⟩⟩ (by decide)⟩

/-- Counterexample to C8 as stated: the single-chunk case emits the raw text.
For input `" a "` the produced chunk's text is `" a "`, which is not trimmed
of its leading/trailing whitespace. -/
theorem claim8_trimmed_counterexample :
    ¬ (∀ c ∈ create_text_chunks " a ".data (),
        c.text ≠ [] ∧ pyStrip c.text = c.text) := by
  decide

/-! ### Claim C10: loop termination -/

/-- Claim C10: for every cursor position inside the text, the window end is
at least `start + 800` (a snapped end never retreats past `end - overlap`),
and the loop's cursor update either jumps to `t.length` (terminating the
loop) or advances by at least `chunk_size - 2*overlap = 600`; in particular
the cursor strictly increases, so fuel `t.length - start` suffices and the
loop's result is independent of any larger fuel (termination). -/
theorem claim10_termination (t : List Char) (start : Nat) (h : start < t.length) :
    start + 800 ≤ compute_end t start ∧
    start < next_start t start ∧
    (next_start t start = t.length ∨ start + 600 ≤ next_start t start) ∧
    (∀ (α : Type) (base : α) (ci fuel : Nat), t.length - start ≤ fuel →
      chunk_loop t base fuel start ci =
        chunk_loop t base (t.length - start) start ci) := by
  refine ⟨compute_end_lb t start, next_start_gt h, ?_, ?_⟩
  · rcases next_start_cases t start with ⟨h1, _⟩ | ⟨_, h2, _⟩
    · exact Or.inl h1
    · exact Or.inr h2
  · intro α base ci fuel hf
    exact chunk_loop_fuel_irrelevant t base fuel (t.length - start) start ci hf
      (Nat.le_refl _)

/-- Witness for C10 at the two-character text `"ab"`, cursor 0. -/
theorem claim10_termination_witness :
    0 < ("ab".data).length ∧
    (0 + 800 ≤ compute_end "ab".data 0 ∧
     0 < next_start "ab".data 0 ∧
     (next_start "ab".data 0 = "ab".data.length ∨
       0 + 600 ≤ next_start "ab".data 0) ∧
     (∀ (α : Type) (base : α) (ci fuel : Nat), "ab".data.length - 0 ≤ fuel →
       chunk_loop "ab".data base fuel 0 ci =
         chunk_loop "ab".data base ("ab".data.length - 0) 0 ci)) :=
  ⟨by decide, claim10_termination _ 0 (by decide)⟩

/-! ## Embedding service (`app/embedding_service.py`)

Embedding vectors are modelled as `List ℚ` (the numeric contents are never
inspected by the verified properties).  The sentence-transformer embedding
capability and the FAISS `index.search` nearest-neighbour capability are
parameters: `embed` maps a batch of texts to vectors (or fails), and
`nearest` maps the current index contents, a query vector and `top_k` to the
FAISS result rows — `(score, idx)` pairs where `idx = -1` marks a padding
row.  Similarity scores are modelled as `ℚ`. -/

/-- A FAISS result entry: a score and a (possibly `-1`) corpus index. -/
abbrev ScoredIdx : Type := ℚ × Int

/-- The mutable state of `EmbeddingService`: the FAISS index contents
(`self.index`), `self.chunks_metadata` and `self.is_indexed`. -/
structure EmbState (α : Type) where
  index : List (List ℚ)
  chunks_metadata : List (ChunkDict α)
  is_indexed : Bool
deriving DecidableEq

/-- `EmbeddingService.__init__`: empty index, no metadata, not indexed. -/
def init_state (α : Type) : EmbState α :=
  { index := [], chunks_metadata := [], is_indexed := false }

/-- `EmbeddingService.index_chunks`: reset the index and clear the metadata,
then embed every chunk's text; on embedding failure the exception propagates
(second component) with the cleared state; on success store the vectors and
the chunks' dicts and set `is_indexed`. -/
def index_chunks {α : Type}
    (embed : List (List Char) → Except (List Char) (List (List ℚ)))
    (chunks : List (DocumentChunk α)) (s : EmbState α) :
    EmbState α × Option (List Char) :=
  match embed (chunks.map (·.text)) with
  | .error e =>
    ({ index := [], chunks_metadata := [], is_indexed := s.is_indexed }, some e)
  | .ok embeddings =>
    ({ index := embeddings,
       chunks_metadata := chunks.map DocumentChunk.to_dict,
       is_indexed := true }, none)

/-- A `search_similar` result: the copied metadata dict with the appended
`similarity_score` entry. -/
structure SearchResult (α : Type) where
  chunk_data : ChunkDict α
  similarity_score : ℚ
deriving DecidableEq

/-- `EmbeddingService.search_similar`: return `[]` when nothing is indexed;
otherwise embed the query (errors propagate), obtain the `top_k` FAISS rows,
and keep — in order — the rows with `idx != -1` and `score >= threshold`,
pairing each kept row's metadata with its score. -/
def search_similar {α : Type}
    (embedQ : List Char → Except (List Char) (List ℚ))
    (nearest : List (List ℚ) → List ℚ → Nat → List ScoredIdx)
    (query : List Char) (top_k : Nat) (score_threshold : ℚ)
    (s : EmbState α) : Except (List Char) (List (SearchResult α)) :=
  if s.is_indexed = false then .ok []
  else
    match embedQ query with
    | .error e => .error e
    | .ok query_embedding =>
      .ok ((nearest s.index query_embedding top_k).filterMap fun p =>
        if p.2 ≠ -1 ∧ score_threshold ≤ p.1 then
          (s.chunks_metadata.get? p.2.toNat).map
            fun md => { chunk_data := md, similarity_score := p.1 }
        else none)

/-- Round a rational to the nearest integer, ties to even (the rounding used
by Python's fixed-point float formatting). -/
def roundHalfEven (q : ℚ) : Int :=
  if q - ⌊q⌋ < 1/2 then ⌊q⌋
  else if (1:ℚ)/2 < q - ⌊q⌋ then ⌊q⌋ + 1
  else if ⌊q⌋ % 2 = 0 then ⌊q⌋ else ⌊q⌋ + 1

/-- Python `f"{score:.2f}"` on the (rational-modelled) score: the score
rounded to two decimal places, rendered with exactly two fractional digits. -/
def format2f (q : ℚ) : List Char :=
  let n : Int := roundHalfEven (q * 100)
  let sign : List Char := if n < 0 then ['-'] else []
  let m : Nat := n.natAbs
  sign ++ (toString (m / 100)).data ++ ['.'] ++
    (if m % 100 < 10 then ['0'] else []) ++ (toString (m % 100)).data

/-- The `for i, chunk in enumerate(similar_chunks, 1)` rendering loop of
`EmbeddingService.get_context_for_query`, carrying the 1-based counter. -/
def context_parts {α : Type} : List (SearchResult α) → Nat → List (List Char)
  | [], _ => []
  | r :: rest, i =>
    ("[Context ".data ++ (toString i).data ++ "] (Score: ".data ++
      format2f r.similarity_score ++ ")\n".data ++ r.chunk_data.text) ::
      context_parts rest (i + 1)

/-- The default `score_threshold = 0.5` of `search_similar` (written as the
reduced fraction 1/2; see `score_threshold_default_eq`). -/
def score_threshold_default : ℚ := Rat.mk' 1 2

theorem score_threshold_default_eq : score_threshold_default = 1 / 2 := by
  unfold score_threshold_default
  rw [Rat.mk'_eq_divInt]
  norm_num [Rat.divInt_eq_div]

/-- `EmbeddingService.get_context_for_query`: search with `top_k =
max_chunks` (threshold left at its default `0.5`), render each result as a
labelled block and join the blocks with blank lines. -/
def get_context_for_query {α : Type}
    (embedQ : List Char → Except (List Char) (List ℚ))
    (nearest : List (List ℚ) → List ℚ → Nat → List ScoredIdx)
    (query : List Char) (max_chunks : Nat) (s : EmbState α) :
    Except (List Char) (List Char) :=
  match search_similar embedQ nearest query max_chunks score_threshold_default s with
  | .error e => .error e
  | .ok similar_chunks =>
    .ok (List.intercalate "\n\n".data (context_parts similar_chunks 1))

/-! ## Gemini service (`app/gemini_service.py`) -/

/-- The fixed system prompt of `GeminiService.generate_answer`. -/
def system_prompt : List Char :=
  ("You are an expert assistant specializing in insurance, legal, HR, and compliance document analysis.\n\nYour task is to provide accurate, helpful answers based solely on the provided context. Follow these guidelines:\n\n1. Answer based only on the provided context\n2. If the context doesn" ++
    String.singleton (Char.ofNat 39) ++
    "t contain enough information, say so clearly\n3. Be specific and cite relevant details from the context\n4. For insurance/legal queries, be precise about terms, conditions, and limitations\n5. If asked about specific clauses, quote them directly when possible\n6. Maintain a professional, helpful tone\n7. Keep answers concise but comprehensive").data

/-- The per-call user prompt of `GeminiService.generate_answer`. -/
def user_prompt (query context : List Char) : List Char :=
  "Context from retrieved documents:\n".data ++ context ++
    "\n\nQuestion: ".data ++ query ++
    "\n\nPlease provide a comprehensive answer based on the context above.".data

/-- `full_prompt = f"{system_prompt}\n\n{user_prompt}"`. -/
def full_prompt (query context : List Char) : List Char :=
  system_prompt ++ "\n\n".data ++ user_prompt query context

/-- The apology string produced by `generate_answer`'s `except` handler. -/
def apology_answer (e : List Char) : List Char :=
  "I apologize, but I encountered an error while processing your query: ".data ++ e

/-- `GeminiService.generate_answer`: invoke the completion capability on the
rendered prompt and strip the response; a failure is caught and converted
into the apology string (never re-raised). -/
def generate_answer (complete : List Char → Except (List Char) (List Char))
    (query context : List Char) : List Char :=
  match complete (full_prompt query context) with
  | .ok response => pyStrip response
  | .error e => apology_answer e

/-- `GeminiService.generate_batch_answers`: one `generate_answer` task per
`zip(queries, contexts)` entry, gathered back in task order.  Since
`generate_answer` catches its own failures, every gathered result is a
string and the `isinstance(result, Exception)` branch is unreachable. -/
def generate_batch_answers
    (complete : List Char → Except (List Char) (List Char))
    (queries contexts : List (List Char)) : List (List Char) :=
  (queries.zip contexts).map fun qc => generate_answer complete qc.1 qc.2

/-! ## Query processor (`app/query_processor.py`) -/

/-- The sequential `for question in questions` context-retrieval loop of
`_process_questions_with_gemini`: the first raised error aborts the loop and
propagates. -/
def mapExcept {σ β : Type} (f : σ → Except (List Char) β) :
    List σ → Except (List Char) (List β)
  | [] => .ok []
  | x :: xs =>
    match f x with
    | .error e => .error e
    | .ok y =>
      match mapExcept f xs with
      | .error e => .error e
      | .ok ys => .ok (y :: ys)

/-- `QueryProcessor._process_questions_with_gemini`: retrieve a context per
question (errors propagate), then batch-generate the answers with
`max_chunks = self.max_context_chunks = 3`. -/
def process_questions_with_gemini {α : Type}
    (embedQ : List Char → Except (List Char) (List ℚ))
    (nearest : List (List ℚ) → List ℚ → Nat → List ScoredIdx)
    (complete : List Char → Except (List Char) (List Char))
    (questions : List (List Char)) (s : EmbState α) :
    Except (List Char) (List (List Char)) :=
  match mapExcept (fun q => get_context_for_query embedQ nearest q 3 s)
      questions with
  | .error e => .error e
  | .ok contexts => .ok (generate_batch_answers complete questions contexts)

/-- `QueryProcessor.process_request`: stage (a) document fetch/extract/chunk
(modelled by the `fetch` capability's outcome), stage (b) indexing, stage
(c) question processing; any stage's error is wrapped into
`"Failed to process request: ..."` and re-raised.  Returns the outcome
together with the embedding-service state after the call. -/
def process_request {α : Type}
    (fetch : Except (List Char) (List (DocumentChunk α)))
    (embed : List (List Char) → Except (List Char) (List (List ℚ)))
    (embedQ : List Char → Except (List Char) (List ℚ))
    (nearest : List (List ℚ) → List ℚ → Nat → List ScoredIdx)
    (complete : List Char → Except (List Char) (List Char))
    (questions : List (List Char)) (s₀ : EmbState α) :
    Except (List Char) (List (List Char)) × EmbState α :=
  match fetch with
  | .error e => (.error ("Failed to process request: ".data ++ e), s₀)
  | .ok chunks =>
    match index_chunks embed chunks s₀ with
    | (s₁, some e) => (.error ("Failed to process request: ".data ++ e), s₁)
    | (s₁, none) =>
      match process_questions_with_gemini embedQ nearest complete questions s₁ with
      | .error e => (.error ("Failed to process request: ".data ++ e), s₁)
      | .ok answers => (.ok answers, s₁)

/-! ### Helper lemmas about the services -/

/-- Every search result's metadata dict is drawn from the state's
`chunks_metadata`. -/
theorem search_similar_mem {α : Type}
    {embedQ : List Char → Except (List Char) (List ℚ)}
    {nearest : List (List ℚ) → List ℚ → Nat → List ScoredIdx}
    {query : List Char} {top_k : Nat} {th : ℚ} {s : EmbState α}
    {res : List (SearchResult α)}
    (h : search_similar embedQ nearest query top_k th s = .ok res) :
    ∀ r ∈ res, r.chunk_data ∈ s.chunks_metadata := by
  unfold search_similar at h
  by_cases hidx : s.is_indexed = false
  · rw [if_pos hidx] at h
    injection h with h
    subst h
    intro r hr
    exact absurd hr (List.not_mem_nil r)
  · rw [if_neg hidx] at h
    rcases he : embedQ query with e | qv
    · rw [he] at h; cases h
    · rw [he] at h
      injection h with h
      subst h
      intro r hr
      obtain ⟨p, _, hp⟩ := List.mem_filterMap.mp hr
      by_cases hc : p.2 ≠ -1 ∧ th ≤ p.1
      · rw [if_pos hc] at hp
        rcases hg : s.chunks_metadata.get? p.2.toNat with _ | md
        · rw [hg] at hp; cases hp
        · rw [hg] at hp
          injection hp with hp
          subst hp
          exact List.get?_mem hg
      · rw [if_neg hc] at hp; cases hp

/-- After `index_chunks`, the stored metadata is either cleared (embedding
failure) or exactly the dicts of the just-indexed chunks. -/
theorem index_chunks_metadata {α : Type}
    (embed : List (List Char) → Except (List Char) (List (List ℚ)))
    (chunks : List (DocumentChunk α)) (s : EmbState α) :
    (index_chunks embed chunks s).1.chunks_metadata = [] ∨
    (index_chunks embed chunks s).1.chunks_metadata =
      chunks.map DocumentChunk.to_dict := by
  unfold index_chunks
  rcases h : embed (chunks.map (·.text)) with e | embs
  · rw [h]; exact Or.inl rfl
  · rw [h]; exact Or.inr rfl

/-- `filterMap` preserves pairwise relations along any function that
transports the relation. -/
theorem pairwise_filterMap_of {σ β : Type} {f : σ → Option β}
    {R : σ → σ → Prop} {S : β → β → Prop}
    (hf : ∀ x y u v, R x y → f x = some u → f y = some v → S u v) :
    ∀ {l : List σ}, l.Pairwise R → (l.filterMap f).Pairwise S := by
  intro l
  induction l with
  | nil => intro _; simp
  | cons a l ih =>
    intro h
    rw [List.pairwise_cons] at h
    rw [List.filterMap_cons]
    rcases ha : f a with _ | u
    · exact ih h.2
    · refine List.Pairwise.cons ?_ (ih h.2)
      intro v hv
      obtain ⟨y, hy, hfy⟩ := List.mem_filterMap.mp hv
      exact hf a y u v (h.1 y hy) ha hfy

/-- `mapExcept` success: the outputs are pointwise the successful images of
the inputs (and the lists have equal length). -/
theorem mapExcept_ok {σ β : Type} {f : σ → Except (List Char) β} :
    ∀ {l : List σ} {ys : List β}, mapExcept f l = .ok ys →
      ys.length = l.length ∧
      ∀ i x, l.get? i = some x → ∃ y, ys.get? i = some y ∧ f x = .ok y := by
  intro l
  induction l with
  | nil =>
    intro ys h
    injection h with h
    subst h
    exact ⟨rfl, fun i x hx => by simp at hx⟩
  | cons a l ih =>
    intro ys h
    unfold mapExcept at h
    rcases ha : f a with e | y
    · rw [ha] at h; cases h
    · rw [ha] at h
      rcases hrest : mapExcept f l with e | ys'
      · rw [hrest] at h; cases h
      · rw [hrest] at h
        injection h with h
        subst h
        obtain ⟨hlen, hpt⟩ := ih hrest
        refine ⟨by simp [hlen], ?_⟩
        intro i x hx
        cases i with
        | zero =>
          simp only [List.get?_cons_zero, Option.some.injEq] at hx
          subst hx
          exact ⟨y, rfl, ha⟩
        | succ j =>
          rw [List.get?_cons_succ] at hx
          rw [List.get?_cons_succ]
          exact hpt j x hx

/-- Pointwise description of `zip`. -/
theorem zip_get? {σ β : Type} :
    ∀ {l₁ : List σ} {l₂ : List β} {i : Nat} {x : σ} {y : β},
      l₁.get? i = some x → l₂.get? i = some y →
      (l₁.zip l₂).get? i = some (x, y) := by
  intro l₁
  induction l₁ with
  | nil => intro l₂ i x y hx _; simp at hx
  | cons a l ih =>
    intro l₂ i x y hx hy
    cases l₂ with
    | nil => simp at hy
    | cons b l' =>
      cases i with
      | zero =>
        simp only [List.get?_cons_zero, Option.some.injEq] at hx hy
        subst hx; subst hy
        rfl
      | succ j =>
        rw [List.get?_cons_succ] at hx hy
        rw [List.zip_cons_cons, List.get?_cons_succ]
        exact ih hx hy

/-- Pointwise description of the rendering loop: the block at position `i`
labels its result with rank `n + i`. -/
theorem context_parts_get? {α : Type} :
    ∀ {l : List (SearchResult α)} (n : Nat) {i : Nat} {r : SearchResult α},
      l.get? i = some r →
      (context_parts l n).get? i =
        some ("[Context ".data ++ (toString (n + i)).data ++
          "] (Score: ".data ++ format2f r.similarity_score ++ ")\n".data ++
          r.chunk_data.text) := by
  intro l
  induction l with
  | nil => intro n i r hr; simp at hr
  | cons a l ih =>
    intro n i r hr
    cases i with
    | zero =>
      simp only [List.get?_cons_zero, Option.some.injEq] at hr
      subst hr
      rfl
    | succ j =>
      rw [List.get?_cons_succ] at hr
      rw [context_parts, List.get?_cons_succ]
      have := ih (n + 1) hr
      rw [this]
      have harith : n + 1 + j = n + (j + 1) := by omega
      rw [harith]

theorem context_parts_length {α : Type} :
    ∀ (l : List (SearchResult α)) (n : Nat),
      (context_parts l n).length = l.length := by
  intro l
  induction l with
  | nil => intro n; rfl
  | cons a l ih => intro n; simp [context_parts, ih]

/-- Dissection of the `search_similar` filter: a kept row passed the
threshold test and its score is copied into the result. -/
theorem search_filter_some {α : Type} {s : EmbState α} {th : ℚ}
    {p : ScoredIdx} {r : SearchResult α}
    (hp : (if p.2 ≠ -1 ∧ th ≤ p.1 then
        (s.chunks_metadata.get? p.2.toNat).map
          (fun md => ({ chunk_data := md, similarity_score := p.1 } :
            SearchResult α))
      else none) = some r) :
    th ≤ p.1 ∧ r.similarity_score = p.1 := by
  by_cases hc : p.2 ≠ -1 ∧ th ≤ p.1
  · rw [if_pos hc] at hp
    rcases hg : s.chunks_metadata.get? p.2.toNat with _ | md
    · rw [hg] at hp; cases hp
    · rw [hg] at hp
      injection hp with hp
      subst hp
      exact ⟨hc.2, rfl⟩
  · rw [if_neg hc] at hp; cases hp

/-! ### Claim C5: search contract -/

/-- Claim C5: before any corpus is indexed, `search_similar` returns the
empty list rather than failing; and on any indexed state, provided the FAISS
capability returns at most `top_k` rows in descending score order (its
documented behaviour), the returned results number at most `top_k`, all meet
the threshold, and preserve descending score order. -/
theorem claim5_search_contract (α : Type)
    (embedQ : List Char → Except (List Char) (List ℚ))
    (nearest : List (List ℚ) → List ℚ → Nat → List ScoredIdx)
    (q : List Char) (k : Nat) (th : ℚ) :
    (∀ s : EmbState α, s.is_indexed = false →
      search_similar embedQ nearest q k th s = .ok []) ∧
    (∀ (s : EmbState α) (qv : List ℚ) (res : List (SearchResult α)),
      embedQ q = .ok qv →
      search_similar embedQ nearest q k th s = .ok res →
      (nearest s.index qv k).length ≤ k →
      List.Pairwise (fun p₁ p₂ : ScoredIdx => p₂.1 ≤ p₁.1)
        (nearest s.index qv k) →
      res.length ≤ k ∧ (∀ r ∈ res, th ≤ r.similarity_score) ∧
      List.Pairwise (fun r₁ r₂ : SearchResult α =>
        r₂.similarity_score ≤ r₁.similarity_score) res) := by
  constructor
  · intro s hs
    unfold search_similar
    rw [if_pos hs]
  · intro s qv res hq hres hlen hsort
    unfold search_similar at hres
    by_cases hidx : s.is_indexed = false
    · rw [if_pos hidx] at hres
      injection hres with hres
      subst hres
      exact ⟨Nat.zero_le _, fun r hr => absurd hr (List.not_mem_nil r),
        List.Pairwise.nil⟩
    · rw [if_neg hidx, hq] at hres
      injection hres with hres
      subst hres
      refine ⟨Nat.le_trans (List.length_filterMap_le _ _) hlen, ?_, ?_⟩
      · intro r hr
        obtain ⟨p, _, hp⟩ := List.mem_filterMap.mp hr
        obtain ⟨h1, h2⟩ := search_filter_some hp
        rw [h2]
        exact h1
      · refine pairwise_filterMap_of ?_ hsort
        intro x y u v hxy hx hy
        obtain ⟨_, hu⟩ := search_filter_some hx
        obtain ⟨_, hv⟩ := search_filter_some hy
        rw [hu, hv]
        exact hxy

/-! ### Claim C4: reindex atomicity -/

/-- Claim C4: after reindexing with `A` and then reindexing with `B` —
including a `B`-reindex that fails partway (embedding failure) — every
result any later search returns carries metadata drawn from `B`'s chunks,
never from `A`'s: the second reindex clears the stored vectors and metadata
before embedding, so a failure leaves the metadata empty and a success
leaves exactly `B`'s dicts. -/
theorem claim4_reindex_atomicity {α : Type}
    (s₀ : EmbState α) (A B : List (DocumentChunk α))
    (embedA embedB : List (List Char) → Except (List Char) (List (List ℚ)))
    (embedQ : List Char → Except (List Char) (List ℚ))
    (nearest : List (List ℚ) → List ℚ → Nat → List ScoredIdx)
    (q : List Char) (k : Nat) (th : ℚ) (res : List (SearchResult α))
    (h : search_similar embedQ nearest q k th
      ((index_chunks embedB B (index_chunks embedA A s₀).1).1) = .ok res) :
    ∀ r ∈ res, r.chunk_data ∈ B.map DocumentChunk.to_dict := by
  intro r hr
  have hm := search_similar_mem h r hr
  rcases index_chunks_metadata embedB B (index_chunks embedA A s₀).1 with h2 | h2
  · rw [h2] at hm
    exact absurd hm (List.not_mem_nil _)
  · rw [h2] at hm
    exact hm

/-! ### Concrete fixtures for the service witnesses -/

/-- A concrete chunk used by the service witnesses. -/
def wChunkA : DocumentChunk Unit := ⟨"alpha".data, "chunk_0", ⟨(), 0, none, none⟩⟩

/-- A second concrete chunk used by the service witnesses. -/
def wChunkB : DocumentChunk Unit := ⟨"beta".data, "chunk_0", ⟨(), 0, none, none⟩⟩

/-- A concrete embedding capability that always succeeds. -/
def wEmbed : List (List Char) → Except (List Char) (List (List ℚ)) :=
  fun _ => .ok [[1]]

/-- A concrete query-embedding capability that always succeeds. -/
def wEmbedQ : List Char → Except (List Char) (List ℚ) := fun _ => .ok [1]

/-- A concrete nearest-neighbour capability returning one row. -/
def wNearest : List (List ℚ) → List ℚ → Nat → List ScoredIdx :=
  fun _ _ _ => [(1, 0)]

/-- A concrete indexed state holding `wChunkB`'s metadata. -/
def wState : EmbState Unit :=
  { index := [[1]], chunks_metadata := [wChunkB.to_dict], is_indexed := true }

/-- Witness for C5: the un-indexed initial state yields `.ok []`, and on the
concrete indexed state the contract's conclusions hold for the concrete
search outcome. -/
theorem claim5_search_contract_witness :
    search_similar wEmbedQ wNearest "q".data 1 0 (init_state Unit) = .ok [] ∧
    ([⟨wChunkB.to_dict, (1:ℚ)⟩] : List (SearchResult Unit)).length ≤ 1 ∧
    (∀ r ∈ ([⟨wChunkB.to_dict, (1:ℚ)⟩] : List (SearchResult Unit)),
      (0:ℚ) ≤ r.similarity_score) ∧
    List.Pairwise (fun r₁ r₂ : SearchResult Unit =>
      r₂.similarity_score ≤ r₁.similarity_score) [⟨wChunkB.to_dict, (1:ℚ)⟩] := by
  have h := claim5_search_contract Unit wEmbedQ wNearest "q".data 1 0
  have h2 := h.2 wState [1] [⟨wChunkB.to_dict, (1:ℚ)⟩] rfl rfl (by decide)
    (by simp [wNearest])
  exact ⟨h.1 (init_state Unit) rfl, h2.1, h2.2.1, h2.2.2⟩

/-- Witness for C4: concretely reindexing `[wChunkA]` then `[wChunkB]` and
searching yields one result, whose metadata is `wChunkB`'s dict. -/
theorem claim4_reindex_atomicity_witness :
    search_similar wEmbedQ wNearest "q".data 1 0
        ((index_chunks wEmbed [wChunkB]
          (index_chunks wEmbed [wChunkA] (init_state Unit)).1).1) =
      .ok [⟨wChunkB.to_dict, (1:ℚ)⟩] ∧
    ∀ r ∈ ([⟨wChunkB.to_dict, (1:ℚ)⟩] : List (SearchResult Unit)),
      r.chunk_data ∈ [wChunkB].map DocumentChunk.to_dict :=
  ⟨rfl, claim4_reindex_atomicity (init_state Unit) [wChunkA] [wChunkB]
    wEmbed wEmbed wEmbedQ wNearest "q".data 1 0 _ rfl⟩

/-! ### Claim C9: context rendering -/

/-- Claim C9: `get_context_for_query` renders the search results, in order,
as blocks `"[Context {1-based rank}] (Score: {score to 2 decimals})\n{chunk
text}"` joined by a blank line, and returns exactly the empty string when no
result meets the threshold. -/
theorem claim9_context_rendering {α : Type}
    (embedQ : List Char → Except (List Char) (List ℚ))
    (nearest : List (List ℚ) → List ℚ → Nat → List ScoredIdx)
    (q : List Char) (mc : Nat) (s : EmbState α)
    (results : List (SearchResult α))
    (h : search_similar embedQ nearest q mc score_threshold_default s = .ok results) :
    get_context_for_query embedQ nearest q mc s =
      .ok (List.intercalate "\n\n".data (context_parts results 1)) ∧
    (context_parts results 1).length = results.length ∧
    (∀ i r, results.get? i = some r →
      (context_parts results 1).get? i =
        some ("[Context ".data ++ (toString (i + 1)).data ++
          "] (Score: ".data ++ format2f r.similarity_score ++ ")\n".data ++
          r.chunk_data.text)) ∧
    (results = [] → get_context_for_query embedQ nearest q mc s = .ok []) := by
  have hg : get_context_for_query embedQ nearest q mc s =
      .ok (List.intercalate "\n\n".data (context_parts results 1)) := by
    unfold get_context_for_query
    rw [h]
  refine ⟨hg, context_parts_length _ _, ?_, ?_⟩
  · intro i r hr
    have h2 := context_parts_get? 1 hr
    rw [Nat.add_comm 1 i] at h2
    exact h2
  · intro hres
    subst hres
    exact hg

/-- Witness for C9 on the concrete indexed state: one result with score 1,
rendered as `"[Context 1] (Score: 1.00)\n" ++ "beta"`. -/
theorem claim9_context_rendering_witness :
    search_similar wEmbedQ wNearest "q".data 1 score_threshold_default wState =
      .ok [⟨wChunkB.to_dict, (1:ℚ)⟩] ∧
    (get_context_for_query wEmbedQ wNearest "q".data 1 wState =
      .ok (List.intercalate "\n\n".data
        (context_parts [⟨wChunkB.to_dict, (1:ℚ)⟩] 1)) ∧
    (context_parts ([⟨wChunkB.to_dict, (1:ℚ)⟩] :
        List (SearchResult Unit)) 1).length =
      ([⟨wChunkB.to_dict, (1:ℚ)⟩] : List (SearchResult Unit)).length ∧
    (∀ i r, ([⟨wChunkB.to_dict, (1:ℚ)⟩] :
        List (SearchResult Unit)).get? i = some r →
      (context_parts ([⟨wChunkB.to_dict, (1:ℚ)⟩] :
          List (SearchResult Unit)) 1).get? i =
        some ("[Context ".data ++ (toString (i + 1)).data ++
          "] (Score: ".data ++ format2f r.similarity_score ++ ")\n".data ++
          r.chunk_data.text)) ∧
    (([⟨wChunkB.to_dict, (1:ℚ)⟩] : List (SearchResult Unit)) = [] →
      get_context_for_query wEmbedQ wNearest "q".data 1 wState = .ok [])) :=
  ⟨rfl, claim9_context_rendering wEmbedQ wNearest "q".data 1 wState
    [⟨wChunkB.to_dict, (1:ℚ)⟩] rfl⟩

/-! ### Batch answer generation -/

/-- For equal-length query/context lists, the batch result has the same
length and its `i`-th entry is the independent `generate_answer` outcome for
the `i`-th pair. -/
theorem generate_batch_answers_spec
    (complete : List Char → Except (List Char) (List Char))
    (queries contexts : List (List Char))
    (h : queries.length = contexts.length) :
    (generate_batch_answers complete queries contexts).length =
      queries.length ∧
    ∀ i q c, queries.get? i = some q → contexts.get? i = some c →
      (generate_batch_answers complete queries contexts).get? i =
        some (generate_answer complete q c) := by
  constructor
  · unfold generate_batch_answers
    rw [List.length_map, List.length_zip, h, Nat.min_self]
  · intro i q c hq hc
    unfold generate_batch_answers
    rw [List.get?_map, zip_get? hq hc]
    rfl

/-! ### Claim C7: per-query failure isolation -/

/-- Claim C7: `generate_answer` never raises — it returns either the
stripped completion text or the apology string embedding the error
description; and on equal-length lists `generate_batch_answers` returns a
same-length list whose `i`-th entry is the independent answer for the
`i`-th query, so a failing query yields its error string at its position
while every other position still resolves to its normal answer. -/
theorem claim7_answer_isolation
    (complete : List Char → Except (List Char) (List Char))
    (query context : List Char) (queries contexts : List (List Char))
    (h : queries.length = contexts.length) :
    ((∃ t, complete (full_prompt query context) = .ok t ∧
        generate_answer complete query context = pyStrip t) ∨
     (∃ e, complete (full_prompt query context) = .error e ∧
        generate_answer complete query context = apology_answer e)) ∧
    (generate_batch_answers complete queries contexts).length =
      queries.length ∧
    ∀ i q c, queries.get? i = some q → contexts.get? i = some c →
      (generate_batch_answers complete queries contexts).get? i =
        some (generate_answer complete q c) := by
  obtain ⟨hlen, hpt⟩ := generate_batch_answers_spec complete queries contexts h
  refine ⟨?_, hlen, hpt⟩
  rcases hc : complete (full_prompt query context) with e | t
  · right
    refine ⟨e, rfl, ?_⟩
    unfold generate_answer
    rw [hc]
  · left
    refine ⟨t, rfl, ?_⟩
    unfold generate_answer
    rw [hc]

/-- The spec's isolation scenario capability: fails exactly on the second
question's prompt. -/
def wComplete : List Char → Except (List Char) (List Char) :=
  fun p => if p = full_prompt "q2".data [] then .error "boom".data
    else .ok "fine".data

/-- Witness for C7: three questions with empty contexts, the completion
capability failing deterministically on the second one. -/
theorem claim7_answer_isolation_witness :
    (["q1".data, "q2".data, "q3".data].length =
      ([[], [], []] : List (List Char)).length) ∧
    (((∃ t, wComplete (full_prompt "q2".data []) = .ok t ∧
        generate_answer wComplete "q2".data [] = pyStrip t) ∨
      (∃ e, wComplete (full_prompt "q2".data []) = .error e ∧
        generate_answer wComplete "q2".data [] = apology_answer e)) ∧
    (generate_batch_answers wComplete ["q1".data, "q2".data, "q3".data]
        [[], [], []]).length =
      ["q1".data, "q2".data, "q3".data].length ∧
    ∀ i q c, ["q1".data, "q2".data, "q3".data].get? i = some q →
      ([[], [], []] : List (List Char)).get? i = some c →
      (generate_batch_answers wComplete ["q1".data, "q2".data, "q3".data]
          [[], [], []]).get? i =
        some (generate_answer wComplete q c)) :=
  ⟨rfl, claim7_answer_isolation wComplete "q2".data []
    ["q1".data, "q2".data, "q3".data] [[], [], []] rfl⟩

/-! ### Claim C6: pipeline staging -/

/-- Claim C6 (amended): the whole `process_request` fails only on stage (a)
(fetch/extract/chunk), stage (b) (reindex) or stage (c) context-retrieval
(query-embedding) errors; once stage (a), stage (b) and every question's
context retrieval succeed, the call returns an answer list of the same
length as the question list whose `i`-th entry is the answer generated for
the `i`-th question, regardless of per-question completion failures. -/
theorem claim6_stage_isolation_amended {α : Type}
    (fetch : Except (List Char) (List (DocumentChunk α)))
    (embed : List (List Char) → Except (List Char) (List (List ℚ)))
    (embedQ : List Char → Except (List Char) (List ℚ))
    (nearest : List (List ℚ) → List ℚ → Nat → List ScoredIdx)
    (complete : List Char → Except (List Char) (List Char))
    (questions : List (List Char)) (s₀ : EmbState α)
    (chunks : List (DocumentChunk α)) (contexts : List (List Char))
    (ha : fetch = .ok chunks)
    (hb : (index_chunks embed chunks s₀).2 = none)
    (hc : mapExcept (fun q => get_context_for_query embedQ nearest q 3
        (index_chunks embed chunks s₀).1) questions = .ok contexts) :
    (process_request fetch embed embedQ nearest complete questions s₀).1 =
      .ok (generate_batch_answers complete questions contexts) ∧
    (generate_batch_answers complete questions contexts).length =
      questions.length ∧
    ∀ i q c, questions.get? i = some q → contexts.get? i = some c →
      (generate_batch_answers complete questions contexts).get? i =
        some (generate_answer complete q c) := by
  have hlen := (mapExcept_ok hc).1
  obtain ⟨hblen, hbpt⟩ :=
    generate_batch_answers_spec complete questions contexts hlen.symm
  refine ⟨?_, hblen, hbpt⟩
  have hpq : process_questions_with_gemini embedQ nearest complete questions
      (index_chunks embed chunks s₀).1 =
      .ok (generate_batch_answers complete questions contexts) := by
    unfold process_questions_with_gemini
    rw [hc]
  rcases hidx : index_chunks embed chunks s₀ with ⟨s₁, err⟩
  rw [hidx] at hb hpq
  simp only at hb hpq
  subst hb
  unfold process_request
  rw [ha]
  simp only [hidx]
  simp only [hpq]

/-- A nearest-neighbour capability returning no rows (used so the happy-path
witness's retrieved context is the empty string). -/
def wNearestEmpty : List (List ℚ) → List ℚ → Nat → List ScoredIdx :=
  fun _ _ _ => []

/-- A completion capability that always succeeds. -/
def wCompleteOk : List Char → Except (List Char) (List Char) :=
  fun _ => .ok "ok".data

/-- Witness for the amended C6: a concrete happy path with one question. -/
theorem claim6_stage_isolation_amended_witness :
    ((Except.ok [wChunkA] :
        Except (List Char) (List (DocumentChunk Unit))) = .ok [wChunkA]) ∧
    (index_chunks wEmbed [wChunkA] (init_state Unit)).2 = none ∧
    mapExcept (fun q => get_context_for_query wEmbedQ wNearestEmpty q 3
        (index_chunks wEmbed [wChunkA] (init_state Unit)).1) ["q".data] =
      .ok [[]] ∧
    ((process_request (Except.ok [wChunkA]) wEmbed wEmbedQ wNearestEmpty
        wCompleteOk ["q".data] (init_state Unit)).1 =
      .ok (generate_batch_answers wCompleteOk ["q".data] [[]]) ∧
    (generate_batch_answers wCompleteOk ["q".data] [[]]).length =
      ["q".data].length ∧
    ∀ i q c, ["q".data].get? i = some q →
      ([[]] : List (List Char)).get? i = some c →
      (generate_batch_answers wCompleteOk ["q".data] [[]]).get? i =
        some (generate_answer wCompleteOk q c)) :=
  ⟨rfl, rfl, rfl,
    claim6_stage_isolation_amended (Except.ok [wChunkA]) wEmbed wEmbedQ
      wNearestEmpty wCompleteOk ["q".data] (init_state Unit) [wChunkA] [[]]
      rfl rfl rfl⟩

/-- A query-embedding capability that always fails (the stage-(c) retrieval
failure exercised by the counterexample). -/
def cexEmbedQ : List Char → Except (List Char) (List ℚ) :=
  fun _ => .error "E".data

/-- Counterexample to C6 as stated: with a fetch and reindex that succeed
but a query-embedding capability that fails at retrieval time, the whole
`process_request` raises (stage (c) context retrieval re-raises through
`search_similar`), so the call can fail even though stages (a) and (b)
succeeded, and no answer list is produced. -/
theorem claim6_stage_isolation_counterexample :
    ((Except.ok [wChunkA] :
        Except (List Char) (List (DocumentChunk Unit))) = .ok [wChunkA]) ∧
    (index_chunks wEmbed [wChunkA] (init_state Unit)).2 = none ∧
    (process_request (Except.ok [wChunkA]) wEmbed cexEmbedQ wNearest
        wCompleteOk ["q".data] (init_state Unit)).1 =
      .error "Failed to process request: E".data :=
  ⟨rfl, rfl, rfl⟩

end Skitzo
